import Mathlib

/-!
Shallow embedding of `docx2python/docx_context.py` (context extraction for
OOXML word-processing documents): numbering-format resolution
(`collect_numFmts`), relationship collection (`collect_rels`), document
properties (`collect_docProps`), context assembly (`get_context`) and image
extraction (`pull_image_files`), together with theorems about the claims of
the specification.

Python dictionaries are modelled as insertion-ordered association lists with
string keys (`Dict`): assignment to an existing key replaces the value in
place, assignment to a fresh key appends, and lookup returns the first (and,
for dictionaries built only by assignment, unique) binding.  Python
exceptions are modelled by `Except PyErr`.  XML elements are modelled by
structures carrying exactly the attributes and children the source reads;
attributes whose absence would raise in the source but which no claim
exercises (such as `w:numId` on a `w:num` element) are modelled as present.
-/

/-- Python exception kinds raised by the embedded code. -/
inductive PyErr where
  | keyError
  | attributeError
  | parseError
deriving DecidableEq, Repr

/-- A Python dict with string keys, as an insertion-ordered association list. -/
abbrev Dict (α : Type) : Type := List (String × α)

/-- Python dict lookup `d[k]` (as an `Option`): first binding with key `k`. -/
def dictGet? {α : Type} (d : Dict α) (k : String) : Option α :=
  (d.find? (fun p => p.1 == k)).map (fun p => p.2)

/-- Python dict assignment `d[k] = v`: replace in place when the key exists,
append otherwise. -/
def dictUpd {α : Type} (d : Dict α) (k : String) (v : α) : Dict α :=
  if d.any (fun p => p.1 == k) then
    d.map (fun p => if p.1 == k then (k, v) else p)
  else
    d ++ [(k, v)]

/-- A Python loop that evaluates `f` on each element in order and assigns the
resulting key-value pair into an accumulating dict, propagating the first
exception.  This is the shape of every dict-building loop and dict
comprehension in `docx_context.py`. -/
def pyDictLoop {α β : Type} (f : α → Except PyErr (String × β)) :
    List α → Dict β → Except PyErr (Dict β)
  | [], d => .ok d
  | x :: xs, d =>
    match f x with
    | .error e => .error e
    | .ok kv => pyDictLoop f xs (dictUpd d kv.1 kv.2)

/-- Split a character list into its slash-separated groups (the list of
groups is never empty: a path with no slash is one group). -/
def splitOnSlash : List Char → List (List Char)
  | [] => [[]]
  | c :: rest =>
    match splitOnSlash rest with
    | [] => [[]]
    | g :: gs => if c = '/' then [] :: g :: gs else (c :: g) :: gs

/-- Rejoin slash-separated groups. -/
def joinSlash : List (List Char) → List Char
  | [] => []
  | [g] => g
  | g :: gs => g ++ '/' :: joinSlash gs

/-- `os.path.dirname`: everything before the final slash, empty for a bare
name (zip entry names carry no leading slash, so the absolute-path edge
cases of `os.path` do not arise). -/
def dirname (s : String) : String :=
  String.mk (joinSlash (splitOnSlash s.data).dropLast)

/-- `os.path.basename`: everything after the final slash. -/
def basename (s : String) : String :=
  String.mk ((splitOnSlash s.data).getLastD [])

/-- Join a directory and a relative path with a slash; an empty directory
contributes nothing. -/
def joinPath (d s : String) : String :=
  if d = "" then s else d ++ "/" ++ s

section NumberingResolver

/-- A `w:lvl` element of an abstract numbering definition: its declared
`w:ilvl` attribute and the `w:val` of its `w:numFmt` child.  The source never
reads `w:ilvl`; it is carried here so that claims about declared levels can
be stated. -/
structure Lvl where
  ilvl : Nat
  numFmtVal : String
deriving DecidableEq, Repr

/-- A `w:abstractNum` element: its `w:abstractNumId` attribute and its
`w:lvl` children in document order. -/
structure AbstractNum where
  abstractNumId : String
  lvls : List Lvl
deriving DecidableEq, Repr

/-- A `w:num` element: its `w:numId` attribute and the `w:val` of its
`w:abstractNumId` child. -/
structure NumElem where
  numId : String
  abstractNumIdVal : String
deriving DecidableEq, Repr

/-- The parsed `word/numbering.xml` part: `w:abstractNum` and `w:num`
children of the root, each list in document order. -/
structure NumberingXml where
  abstractNums : List AbstractNum
  nums : List NumElem
deriving DecidableEq, Repr

/-- The format list collected for one abstract definition: one `w:numFmt`
value per `w:lvl` child, in document order (the source never consults
`w:ilvl`). -/
def abstractFmts (a : AbstractNum) : List String :=
  a.lvls.map (fun l => l.numFmtVal)

/-- First loop of `collect_numFmts`: build the dict from abstractNumId to its
format list. -/
def abstractNumId2numFmts (abstractNums : List AbstractNum) : Dict (List String) :=
  abstractNums.foldl (fun d a => dictUpd d a.abstractNumId (abstractFmts a)) []

/-- One iteration of the second loop of `collect_numFmts`: dereference a
`w:num` element's abstract reference; a dangling reference raises
`KeyError`. -/
def numEntry (table : Dict (List String)) (num : NumElem) :
    Except PyErr (String × List String) :=
  match dictGet? table num.abstractNumIdVal with
  | some fmts => .ok (num.numId, fmts)
  | none => .error PyErr.keyError

/-- `collect_numFmts`: map each concrete `w:numId` to the format list of the
abstract definition it references. -/
def collect_numFmts (xml : NumberingXml) : Except PyErr (Dict (List String)) :=
  pyDictLoop (numEntry (abstractNumId2numFmts xml.abstractNums)) xml.nums []

/-- The format a definition declares at level `i`: the `w:numFmt` value of
the first `w:lvl` child whose declared `w:ilvl` is `i`.  Used to state the
specification's claims about declared levels; the source has no counterpart
of this function. -/
def declaredFmtAtLevel (a : AbstractNum) (i : Nat) : Option String :=
  (a.lvls.find? (fun l => l.ilvl == i)).map (fun l => l.numFmtVal)

end NumberingResolver

section DictLemmas

theorem dictGet?_nil {α : Type} (k : String) : dictGet? ([] : Dict α) k = none := rfl

theorem dictGet?_cons {α : Type} (p : String × α) (d : Dict α) (k : String) :
    dictGet? (p :: d) k = if p.1 = k then some p.2 else dictGet? d k := by
  by_cases h : p.1 = k
  · simp [dictGet?, List.find?, h]
  · have h' : (p.1 == k) = false := beq_eq_false_iff_ne.mpr h
    simp [dictGet?, List.find?, h, h']

theorem dictGet?_append {α : Type} (d₁ d₂ : Dict α) (k : String) :
    dictGet? (d₁ ++ d₂) k =
      match dictGet? d₁ k with
      | some v => some v
      | none => dictGet? d₂ k := by
  induction d₁ with
  | nil => simp [dictGet?_nil]
  | cons p rest ih =>
    by_cases h : p.1 = k
    · simp [dictGet?_cons, h]
    · simpa [dictGet?_cons, h] using ih

/-- Lookup in a dict whose first loop produced no binding for `k`. -/
theorem dictGet?_eq_none_of_not_any {α : Type} (d : Dict α) (k : String)
    (h : d.any (fun p => p.1 == k) = false) : dictGet? d k = none := by
  induction d with
  | nil => rfl
  | cons p rest ih =>
    simp only [List.any_cons, Bool.or_eq_false_iff] at h
    have h1 : p.1 ≠ k := by
      intro hk
      simp [hk] at h
    rw [dictGet?_cons, if_neg h1]
    exact ih h.2

/-- Replacing bindings of key `k` in place does not change lookups of other
keys. -/
theorem dictGet?_map_upd_ne {α : Type} (d : Dict α) (k k' : String) (v : α)
    (hne : k' ≠ k) :
    dictGet? (d.map (fun p => if p.1 == k then (k, v) else p)) k' = dictGet? d k' := by
  induction d with
  | nil => rfl
  | cons p rest ih =>
    by_cases hp : p.1 = k
    · have h1 : k ≠ k' := fun h => hne h.symm
      have h2 : p.1 ≠ k' := by rw [hp]; exact h1
      simp only [List.map_cons, hp, beq_self_eq_true, if_true]
      rw [dictGet?_cons, dictGet?_cons, if_neg h1, if_neg h2]
      exact ih
    · have hp' : (p.1 == k) = false := beq_eq_false_iff_ne.mpr hp
      simp only [List.map_cons, hp', Bool.false_eq_true, if_false]
      rw [dictGet?_cons, dictGet?_cons]
      by_cases hk' : p.1 = k'
      · simp [hk']
      · rw [if_neg hk', if_neg hk']
        exact ih

/-- Replacing bindings of key `k` in place makes the lookup of `k` read the
new value, provided some binding with key `k` exists. -/
theorem dictGet?_map_upd_self {α : Type} (d : Dict α) (k : String) (v : α)
    (hany : d.any (fun p => p.1 == k) = true) :
    dictGet? (d.map (fun p => if p.1 == k then (k, v) else p)) k = some v := by
  induction d with
  | nil => simp at hany
  | cons p rest ih =>
    by_cases hp : p.1 = k
    · simp only [List.map_cons, hp, beq_self_eq_true, if_true]
      rw [dictGet?_cons, if_pos rfl]
    · have hp' : (p.1 == k) = false := beq_eq_false_iff_ne.mpr hp
      simp only [List.any_cons, hp', Bool.false_or] at hany
      simp only [List.map_cons, hp', Bool.false_eq_true, if_false]
      rw [dictGet?_cons, if_neg hp]
      exact ih hany

/-- Characterization of lookup after assignment: the assigned key reads the
new value, every other key is untouched. -/
theorem dictGet?_dictUpd {α : Type} (d : Dict α) (k k' : String) (v : α) :
    dictGet? (dictUpd d k v) k' = if k' = k then some v else dictGet? d k' := by
  unfold dictUpd
  by_cases hany : d.any (fun p => p.1 == k) = true
  · rw [if_pos hany]
    by_cases hk : k' = k
    · subst hk
      rw [if_pos rfl]
      exact dictGet?_map_upd_self d k' v hany
    · rw [if_neg hk]
      exact dictGet?_map_upd_ne d k k' v hk
  · rw [if_neg hany]
    rw [dictGet?_append]
    by_cases hk : k' = k
    · subst hk
      have hnone : dictGet? d k' = none :=
        dictGet?_eq_none_of_not_any d k' (Bool.eq_false_iff.mpr hany)
      rw [hnone, if_pos rfl]
      rw [dictGet?_cons, if_pos rfl]
    · rw [if_neg hk]
      cases hd : dictGet? d k' with
      | some w => rfl
      | none =>
        have : k ≠ k' := fun h => hk h.symm
        simp [dictGet?_cons, this, dictGet?_nil]

/-- Every binding of a dict after an assignment is either an old binding or
the assigned pair. -/
theorem mem_dictUpd {α : Type} {d : Dict α} {k : String} {v : α}
    {e : String × α} (h : e ∈ dictUpd d k v) : e ∈ d ∨ e = (k, v) := by
  unfold dictUpd at h
  by_cases hany : d.any (fun p => p.1 == k) = true
  · rw [if_pos hany] at h
    rcases List.mem_map.mp h with ⟨p, hp, hpe⟩
    by_cases hpk : p.1 = k
    · right
      rw [← hpe]
      simp [hpk]
    · left
      have hpk' : (p.1 == k) = false := beq_eq_false_iff_ne.mpr hpk
      rw [← hpe]
      simp only [hpk', Bool.false_eq_true, if_false]
      exact hp
  · rw [if_neg hany] at h
    rcases List.mem_append.mp h with h1 | h1
    · exact Or.inl h1
    · right
      simpa using h1

end DictLemmas

section LoopLemmas

/-- A dict-building loop over an appended list runs the two halves in
sequence. -/
theorem pyDictLoop_append {α β : Type} (f : α → Except PyErr (String × β))
    (l₁ l₂ : List α) (d : Dict β) :
    pyDictLoop f (l₁ ++ l₂) d =
      match pyDictLoop f l₁ d with
      | .ok mid => pyDictLoop f l₂ mid
      | .error e => .error e := by
  induction l₁ generalizing d with
  | nil => simp [pyDictLoop]
  | cons x xs ih =>
    simp only [List.cons_append, pyDictLoop]
    cases f x with
    | error e => rfl
    | ok kv => exact ih (dictUpd d kv.1 kv.2)

/-- If a dict-building loop succeeds, `f` succeeded on every element. -/
theorem pyDictLoop_ok_forall {α β : Type} {f : α → Except PyErr (String × β)}
    {l : List α} {d out : Dict β} (h : pyDictLoop f l d = .ok out) :
    ∀ x ∈ l, ∃ kv, f x = .ok kv := by
  induction l generalizing d with
  | nil => intro x hx; exact absurd hx (List.not_mem_nil x)
  | cons y ys ih =>
    intro x hx
    simp only [pyDictLoop] at h
    cases hfy : f y with
    | error e => rw [hfy] at h; exact absurd h (by simp)
    | ok kv =>
      rw [hfy] at h
      rcases List.mem_cons.mp hx with hx | hx
      · exact ⟨kv, hx ▸ hfy⟩
      · exact ih h x hx

/-- If `f` succeeds on every element, the dict-building loop succeeds. -/
theorem pyDictLoop_total {α β : Type} {f : α → Except PyErr (String × β)}
    {l : List α} (h : ∀ x ∈ l, ∃ kv, f x = .ok kv) (d : Dict β) :
    ∃ out, pyDictLoop f l d = .ok out := by
  induction l generalizing d with
  | nil => exact ⟨d, rfl⟩
  | cons y ys ih =>
    rcases h y (List.mem_cons_self y ys) with ⟨kv, hkv⟩
    simp only [pyDictLoop, hkv]
    exact ih (fun x hx => h x (List.mem_cons_of_mem y hx)) (dictUpd d kv.1 kv.2)

/-- A key assigned by no iteration of a successful loop reads the same value
after the loop as before it. -/
theorem pyDictLoop_untouched {α β : Type} {f : α → Except PyErr (String × β)}
    {l : List α} {d out : Dict β} {b : String}
    (h : pyDictLoop f l d = .ok out)
    (hb : ∀ x ∈ l, ∀ kv, f x = .ok kv → kv.1 ≠ b) :
    dictGet? out b = dictGet? d b := by
  induction l generalizing d with
  | nil => simp only [pyDictLoop] at h; cases h; rfl
  | cons y ys ih =>
    simp only [pyDictLoop] at h
    cases hfy : f y with
    | error e => rw [hfy] at h; exact absurd h (by simp)
    | ok kv =>
      rw [hfy] at h
      have hne : kv.1 ≠ b := hb y (List.mem_cons_self y ys) kv hfy
      have := ih h (fun x hx => hb x (List.mem_cons_of_mem y hx))
      rw [this, dictGet?_dictUpd, if_neg (fun hbk => hne hbk.symm)]

/-- Every binding of the dict a successful loop returns is an initial binding
or the result of `f` on some element. -/
theorem pyDictLoop_mem {α β : Type} {f : α → Except PyErr (String × β)}
    {l : List α} {d out : Dict β} (h : pyDictLoop f l d = .ok out) :
    ∀ e ∈ out, e ∈ d ∨ ∃ x ∈ l, f x = .ok e := by
  induction l generalizing d with
  | nil =>
    simp only [pyDictLoop] at h
    cases h
    intro e he
    exact Or.inl he
  | cons y ys ih =>
    simp only [pyDictLoop] at h
    cases hfy : f y with
    | error e => rw [hfy] at h; exact absurd h (by simp)
    | ok kv =>
      rw [hfy] at h
      intro e he
      rcases ih h e he with hd | ⟨x, hx, hfx⟩
      · rcases mem_dictUpd hd with hd | hd
        · exact Or.inl hd
        · right
          refine ⟨y, List.mem_cons_self y ys, ?_⟩
          rw [hfy, hd]
      · exact Or.inr ⟨x, List.mem_cons_of_mem y hx, hfx⟩

end LoopLemmas

section DocPropsCollector

/-- A direct child element of the core-properties root: its (namespace
qualified) tag and its direct text content (`None` for an empty element). -/
structure PropsChild where
  tag : String
  text : Option String
deriving DecidableEq, Repr

/-- The parsed `docProps/core.xml` part: the direct children of the root in
document order. -/
structure PropsXml where
  children : List PropsChild
deriving DecidableEq, Repr

/-- Python `\w`: a word character (letters, digits, underscore; the
non-ASCII word characters of Python's Unicode `\w` do not occur in
core-properties tags). -/
def isWordChar (c : Char) : Bool :=
  c.isAlphanum || c == '_'

/-- The greedy `\w+` capture: the maximal word-character run at the front. -/
def takeWordRun : List Char → List Char
  | [] => []
  | c :: cs => if isWordChar c then c :: takeWordRun cs else []

/-- Whether position `j` (inside the text after the opening brace) is a valid
split for the pattern `{.+}(\w+)`: at least one character before it (all
matched by `.`, hence no newline), a closing brace at `j`, and a word
character right after it. -/
def validBraceSplit (rest : List Char) (j : Nat) : Bool :=
  decide (1 ≤ j) &&
  (match rest.get? j with
   | some c => c == '}'
   | none => false) &&
  (match rest.get? (j + 1) with
   | some c => isWordChar c
   | none => false) &&
  (rest.take j).all (fun c => c != '\n')

/-- Matching of the text after the opening brace against `.+}(\w+)`: a greedy
`.+` backtracks from the right, so the largest valid split wins, and the
capture is the word run after it. -/
def matchAfterBrace (rest : List Char) : Option (List Char) :=
  match ((List.range rest.length).filter (validBraceSplit rest)).getLast? with
  | some j => some (takeWordRun (rest.drop (j + 1)))
  | none => none

/-- The `capture_tag_name` regex match of `collect_docProps` (pattern
`{.+}(?P<tag_name>\w+)` applied with `re.match`), returning the captured
group: the match is anchored at the start, so the tag must open with a
brace. -/
def reMatchTagName (tag : String) : Option String :=
  match tag.data with
  | '{' :: rest => (matchAfterBrace rest).map (fun cs => String.mk cs)
  | _ => none

/-- One iteration of the `collect_docProps` loop: capture the local tag name;
when the regex does not match, `re.match` returns `None` and the `.group`
call raises `AttributeError`. -/
def docPropEntry (dc : PropsChild) : Except PyErr (String × Option String) :=
  match reMatchTagName dc.tag with
  | some name => .ok (name, dc.text)
  | none => .error PyErr.attributeError

/-- `collect_docProps`: map each direct child's captured local tag name to its
text content. -/
def collect_docProps (xml : PropsXml) : Except PyErr (Dict (Option String)) :=
  pyDictLoop docPropEntry xml.children []

end DocPropsCollector

section Archive

/-- The parsed content of one archive entry, by the way `docx_context.py`
consumes it: a relationship descriptor is a list of relationship-element
attribute dicts, the numbering part and the core-properties part are their
parsed XML, and image payloads are opaque byte strings. -/
inductive ZipPart where
  | rels (items : List (Dict String))
  | numbering (xml : NumberingXml)
  | docProps (xml : PropsXml)
  | binary (content : String)
deriving DecidableEq, Repr

/-- A zip archive: its entry names with their parsed contents, in
`zipf.namelist()` order. -/
structure Archive where
  entries : List (String × ZipPart)
deriving DecidableEq, Repr

/-- Python `x[-5:] == ".rels"` (equivalent to a suffix test for every
length): the last five characters, compared to `".rels"`. -/
def relsName (s : String) : Bool :=
  s.data.reverse.take 5 == ".rels".data.reverse

/-- One iteration of the `collect_rels` loop: the attribute dicts of the
relationship elements of one descriptor part; content that is not
relationship XML would fail to parse. -/
def relsEntry (e : String × ZipPart) : Except PyErr (String × List (Dict String)) :=
  match e.2 with
  | ZipPart.rels items => .ok (e.1, items)
  | _ => .error PyErr.parseError

/-- `collect_rels`: map every `.rels`-named entry of the archive to the list
of its relationship attribute dicts. -/
def collect_rels (z : Archive) : Except PyErr (Dict (List (Dict String))) :=
  pyDictLoop relsEntry (z.entries.filter (fun e => relsName e.1)) []

/-- `zipf.read("word/numbering.xml")` followed by the parse inside
`collect_numFmts`: a missing entry raises `KeyError`. -/
def readNumberingPart (z : Archive) : Except PyErr NumberingXml :=
  match z.entries.find? (fun e => e.1 == "word/numbering.xml") with
  | some e =>
    match e.2 with
    | ZipPart.numbering xml => .ok xml
    | _ => .error PyErr.parseError
  | none => .error PyErr.keyError

/-- `zipf.read(name)` of an image payload: a missing entry raises `KeyError`
(the modelled archives store image payloads as `ZipPart.binary`). -/
def readBinary (z : Archive) (name : String) : Except PyErr String :=
  match z.entries.find? (fun e => e.1 == name) with
  | some e =>
    match e.2 with
    | ZipPart.binary b => .ok b
    | _ => .error PyErr.parseError
  | none => .error PyErr.keyError

end Archive

section ContextAssembler

/-- One flattened relationship record of `get_context`: the relationship
element's attribute dict (spread by `{**x, ...}`), the added `"dir"` value
(`os.path.dirname` of the descriptor entry name) and the optionally attached
`"rels"` list.  The source stores all three in one Python dict; `"dir"` and
`"rels"` are modelled as fields since the OOXML relationship attributes never
use those names. -/
structure FileRecord where
  attribs : Dict String
  dir : String
  rels : Option (List (Dict String))
deriving DecidableEq, Repr

/-- Modelled from the spec: `get_path` (module `attribute_dicts`, absent from
the sources) resolves a record's target relative to its owning directory —
the directory containing the referencing part, obtained by stripping the
`_rels` component from the record's `"dir"` value — rather than the archive
root.  A record without a `Target` attribute raises `KeyError`. -/
def get_path (f : FileRecord) : Except PyErr String :=
  match dictGet? f.attribs "Target" with
  | some t => .ok (joinPath (dirname f.dir) t)
  | none => .error PyErr.keyError

/-- Modelled from the spec: `get_path_rels` (module `attribute_dicts`, absent
from the sources) names the relationship descriptor of the record's own
target — a descriptor for part `P` lives in `P`'s containing directory's
`_rels` subfolder and is named after `P` with a `.rels` suffix. -/
def get_path_rels (f : FileRecord) : Except PyErr String :=
  match get_path f with
  | .ok p => .ok (joinPath (dirname p) ("_rels/" ++ basename p ++ ".rels"))
  | .error e => .error e

/-- The `with suppress(KeyError)` cross-linking step of `get_context`: attach
the descriptor list of the record's own target when one exists; a missing
`Target` attribute or a missing descriptor is silently skipped. -/
def tryCrossLink (path2rels : Dict (List (Dict String))) (f : FileRecord) :
    FileRecord :=
  match get_path_rels f with
  | .ok p =>
    match dictGet? path2rels p with
    | some rels => { f with rels := some rels }
    | none => f
  | .error _ => f

/-- The flattening loop of `get_context`: one record per relationship entry
of every descriptor part, tagged with `os.path.dirname` of the descriptor
entry name. -/
def flattenFiles (path2rels : Dict (List (Dict String))) : List FileRecord :=
  path2rels.foldl
    (fun acc kv => acc ++ kv.2.map (fun x => FileRecord.mk x (dirname kv.1) none))
    []

/-- A per-list counter table: indentation level mapped to a running count,
reading 0 for a level never assigned (`defaultdict(lambda: 0)`). -/
abbrev Counter : Type := List (Nat × Nat)

/-- Reading a counter at a level: the stored count, or the default 0. -/
def counterRead (c : Counter) (lvl : Nat) : Nat :=
  match c.find? (fun p => p.1 == lvl) with
  | some p => p.2
  | none => 0

/-- The context `get_context` returns: a Python dict whose `"numId2numFmts"`
and `"numId2count"` keys are only present for documents with numbering
definitions, modelled as optional fields. -/
structure Context where
  files : List FileRecord
  numId2numFmts : Option (Dict (List String))
  numId2count : Option (Dict Counter)
deriving DecidableEq, Repr

/-- Reading `context["numId2numFmts"]`: raises `KeyError` when the key was
never set. -/
def Context.readNumId2numFmts (c : Context) : Except PyErr (Dict (List String)) :=
  match c.numId2numFmts with
  | some d => .ok d
  | none => .error PyErr.keyError

/-- Reading `context["numId2count"]`: raises `KeyError` when the key was
never set. -/
def Context.readNumId2count (c : Context) : Except PyErr (Dict Counter) :=
  match c.numId2count with
  | some d => .ok d
  | none => .error PyErr.keyError

/-- The body of the `try` block of `get_context`:
`collect_numFmts(zipf.read("word/numbering.xml"))`. -/
def numberingTry (z : Archive) : Except PyErr (Dict (List String)) :=
  match readNumberingPart z with
  | .ok nxml => collect_numFmts nxml
  | .error e => .error e

/-- `get_context`: flatten and cross-link the relationship records, then try
to add the numbering index and a zeroed counter table; the `except KeyError:
pass` clause turns ANY `KeyError` of the `try` block into the
numbering-absent context. -/
def get_context (z : Archive) : Except PyErr Context :=
  match collect_rels z with
  | .error e => .error e
  | .ok path2rels =>
    match numberingTry z with
    | .ok numId2numFmts =>
      .ok { files := (flattenFiles path2rels).map (tryCrossLink path2rels),
            numId2numFmts := some numId2numFmts,
            numId2count :=
              some (numId2numFmts.map (fun p => (p.1, ([] : Counter)))) }
    | .error PyErr.keyError =>
      .ok { files := (flattenFiles path2rels).map (tryCrossLink path2rels),
            numId2numFmts := none, numId2count := none }
    | .error e => .error e

end ContextAssembler

section ImageExtractor

/-- Modelled from the spec: `filter_files_by_type` (module `attribute_dicts`,
absent from the sources) keeps the records whose relationship type URI
denotes the given type — the type's base name equals the type string. -/
def filter_files_by_type (files : List FileRecord) (t : String) : List FileRecord :=
  files.filter (fun f =>
    match dictGet? f.attribs "Type" with
    | some ty => basename ty == t
    | none => false)

/-- One entry of the image dict comprehension of `pull_image_files`: the base
name of the record's target, mapped to the bytes read at the record's
resolved path. -/
def imageEntry (z : Archive) (x : FileRecord) : Except PyErr (String × String) :=
  match dictGet? x.attribs "Target" with
  | none => .error PyErr.keyError
  | some t =>
    match get_path x with
    | .error e => .error e
    | .ok p =>
      match readBinary z p with
      | .error e => .error e
      | .ok b => .ok (basename t, b)

/-- `pull_image_files`: the image-typed records' targets, keyed by base name
(the optional write of the payloads to a destination directory is plain file
I/O and changes nothing about the returned mapping). -/
def pull_image_files (z : Archive) (ctx : Context) : Except PyErr (Dict String) :=
  pyDictLoop (imageEntry z) (filter_files_by_type ctx.files "image") []

end ImageExtractor

section ClaimC1

/-- The numbering part of an archive with a dangling abstract reference: the
single `w:num` element references abstract id "9", but only abstract id "0"
is defined. -/
def xmlC1 : NumberingXml :=
  { abstractNums := [{ abstractNumId := "0", lvls := [{ ilvl := 0, numFmtVal := "decimal" }] }],
    nums := [{ numId := "2", abstractNumIdVal := "9" }] }

/-- An archive whose numbering part contains the dangling reference. -/
def zC1 : Archive := { entries := [("word/numbering.xml", ZipPart.numbering xmlC1)] }

/-- The same archive with no numbering part at all. -/
def zC1noNum : Archive := { entries := [] }

/-- C1: numbering resolution of a dangling abstract reference does raise a
`KeyError` inside `collect_numFmts`, but the `except KeyError: pass` clause
of `get_context` catches it, so `get_context` returns a context with the
numbering fields absent — identical to the context of an archive with no
numbering part at all.  The error is silently swallowed rather than
propagated, contradicting the claim (and the intent documented by the
source's own `# no bullets or numbered paragraphs in file` comment). -/
theorem c1_dangling_reference_swallowed :
    collect_numFmts xmlC1 = .error PyErr.keyError ∧
    get_context zC1 = .ok { files := [], numId2numFmts := none, numId2count := none } ∧
    get_context zC1noNum = .ok { files := [], numId2numFmts := none, numId2count := none } :=
  ⟨rfl, rfl, rfl⟩

end ClaimC1

section ClaimC2

/-- C2: when the archive has no `word/numbering.xml` entry, the context that
`get_context` returns has both numbering fields in the explicit not-present
state, and reading either raises `KeyError` (never an empty mapping). -/
theorem c2_numbering_absent_fields_not_present (z : Archive) (ctx : Context)
    (hno : ∀ e ∈ z.entries, e.1 ≠ "word/numbering.xml")
    (hok : get_context z = .ok ctx) :
    ctx.numId2numFmts = none ∧ ctx.numId2count = none ∧
    ctx.readNumId2numFmts = .error PyErr.keyError ∧
    ctx.readNumId2count = .error PyErr.keyError := by
  have hfind : z.entries.find? (fun e => e.1 == "word/numbering.xml") = none := by
    rw [List.find?_eq_none]
    intro e he
    simpa using hno e he
  have htry : numberingTry z = .error PyErr.keyError := by
    unfold numberingTry readNumberingPart
    rw [hfind]
  unfold get_context at hok
  cases hcr : collect_rels z with
  | error e =>
    rw [hcr] at hok
    exact absurd hok (by simp)
  | ok p2r =>
    rw [hcr] at hok
    simp only [htry] at hok
    cases hok
    exact ⟨rfl, rfl, rfl, rfl⟩

/-- A numbering-free archive holding only the top-level descriptor. -/
def zC2w : Archive :=
  { entries := [("_rels/.rels", ZipPart.rels
      [[("Id", "rId1"), ("Type", "http://t/officeDocument"), ("Target", "word/document.xml")]])] }

/-- The context `get_context` returns for `zC2w`. -/
def ctxC2w : Context :=
  { files := [{ attribs := [("Id", "rId1"), ("Type", "http://t/officeDocument"),
                            ("Target", "word/document.xml")],
                dir := "_rels", rels := none }],
    numId2numFmts := none, numId2count := none }

/-- Witness for C2 at a concrete numbering-free archive. -/
theorem c2_witness :
    Context.readNumId2numFmts ctxC2w = .error PyErr.keyError ∧
    Context.readNumId2count ctxC2w = .error PyErr.keyError :=
  ⟨(c2_numbering_absent_fields_not_present zC2w ctxC2w (by decide) rfl).2.2.1,
   (c2_numbering_absent_fields_not_present zC2w ctxC2w (by decide) rfl).2.2.2⟩

end ClaimC2

section ClaimC3

/-- An archive with no relationship-descriptor part at all. -/
def zC3 : Archive := { entries := [("word/document.xml", ZipPart.binary "doc")] }

/-- C3 counterexample: an archive with no relationship descriptors (in
particular no top-level `_rels/.rels`) does NOT make `get_context` fail:
`get_context` returns a context with an empty record list, contradicting the
claimed fatal malformed-archive error. -/
theorem c3_counterexample_no_rels_ok :
    get_context zC3 = .ok { files := [], numId2numFmts := none, numId2count := none } :=
  rfl

/-- C3 amended: `get_context` performs no check for the top-level
relationship descriptor; for any archive with no `.rels`-named entry (and no
numbering part), it returns a context with an empty flattened record list
instead of failing. -/
theorem c3_amended_no_rels_returns_empty_context (z : Archive)
    (h1 : ∀ e ∈ z.entries, relsName e.1 = false)
    (h2 : ∀ e ∈ z.entries, e.1 ≠ "word/numbering.xml") :
    get_context z = .ok { files := [], numId2numFmts := none, numId2count := none } := by
  have hfilter : z.entries.filter (fun e => relsName e.1) = [] := by
    rw [List.filter_eq_nil_iff]
    intro e he
    simp [h1 e he]
  have hcr : collect_rels z = .ok [] := by
    unfold collect_rels
    rw [hfilter]
    rfl
  have hfind : z.entries.find? (fun e => e.1 == "word/numbering.xml") = none := by
    rw [List.find?_eq_none]
    intro e he
    simpa using h2 e he
  have htry : numberingTry z = .error PyErr.keyError := by
    unfold numberingTry readNumberingPart
    rw [hfind]
  unfold get_context
  rw [hcr]
  simp only [htry]
  rfl

/-- A descriptor-free archive unrelated to the counterexample's. -/
def zC3w : Archive :=
  { entries := [("docProps/core.xml", ZipPart.docProps { children := [] }),
                ("word/document.xml", ZipPart.binary "doc")] }

/-- Witness for the amended C3 at a concrete descriptor-free archive. -/
theorem c3_witness :
    get_context zC3w = .ok { files := [], numId2numFmts := none, numId2count := none } :=
  c3_amended_no_rels_returns_empty_context zC3w (by decide) (by decide)

end ClaimC3

section ClaimC7

/-- C7: whenever the context `get_context` returns carries a numbering index,
the counter table is exactly the index's keys each mapped to an empty
(all-zero-defaulting) counter: the key lists coincide, and reading any
counter at any level gives 0. -/
theorem c7_counters_zeroed_after_assembly (z : Archive) (ctx : Context)
    (table : Dict (List String))
    (hok : get_context z = .ok ctx)
    (htab : ctx.numId2numFmts = some table) :
    ctx.numId2count = some (table.map (fun p => (p.1, ([] : Counter)))) ∧
    (table.map (fun p => (p.1, ([] : Counter)))).map Prod.fst = table.map Prod.fst ∧
    ∀ numId c, dictGet? (table.map (fun p => (p.1, ([] : Counter)))) numId = some c →
      ∀ lvl, counterRead c lvl = 0 := by
  refine ⟨?_, ?_, ?_⟩
  · unfold get_context at hok
    cases hcr : collect_rels z with
    | error e =>
      rw [hcr] at hok
      exact absurd hok (by simp)
    | ok p2r =>
      rw [hcr] at hok
      cases htry : numberingTry z with
      | ok nfmts =>
        rw [htry] at hok
        cases hok
        have hnt : nfmts = table := by
          have := htab
          simp only [Context.numId2numFmts] at this
          exact Option.some.inj this
        subst hnt
        rfl
      | error e =>
        rw [htry] at hok
        cases e with
        | keyError =>
          cases hok
          exact absurd htab (by simp)
        | attributeError => exact absurd hok (by simp)
        | parseError => exact absurd hok (by simp)
  · rw [List.map_map]
    rfl
  · intro numId c h lvl
    unfold dictGet? at h
    cases hf : (table.map (fun p => (p.1, ([] : Counter)))).find?
        (fun p => p.1 == numId) with
    | none => rw [hf] at h; exact absurd h (by simp)
    | some pr =>
      rw [hf] at h
      have hc : pr.2 = c := Option.some.inj h
      have hmem := List.mem_of_find?_eq_some hf
      rcases List.mem_map.mp hmem with ⟨p, _, hpe⟩
      have hpr2 : pr.2 = ([] : Counter) := by rw [← hpe]
      rw [← hc, hpr2]
      rfl

/-- An archive with one abstract definition and one concrete list. -/
def zC7w : Archive :=
  { entries := [("word/numbering.xml", ZipPart.numbering
      { abstractNums := [{ abstractNumId := "0",
                           lvls := [{ ilvl := 0, numFmtVal := "decimal" }] }],
        nums := [{ numId := "1", abstractNumIdVal := "0" }] })] }

/-- The context `get_context` returns for `zC7w`. -/
def ctxC7w : Context :=
  { files := [], numId2numFmts := some [("1", ["decimal"])],
    numId2count := some [("1", [])] }

/-- Witness for C7 at a concrete archive with one numbered list. -/
theorem c7_witness :
    Context.numId2count ctxC7w = some [("1", ([] : Counter))] ∧
    counterRead ([] : Counter) 3 = 0 :=
  ⟨(c7_counters_zeroed_after_assembly zC7w ctxC7w [("1", ["decimal"])] rfl rfl).1,
   (c7_counters_zeroed_after_assembly zC7w ctxC7w [("1", ["decimal"])] rfl rfl).2.2
     "1" [] rfl 3⟩

end ClaimC7

section ClaimC6

/-- C6: for every concrete `w:num` element whose referenced abstract id
resolves in the abstract table (and whose `w:numId` is not re-assigned by a
duplicate element), the index `collect_numFmts` returns maps that concrete id
to exactly the abstract table's entry for the referenced id — which does
resolve, since `collect_numFmts` succeeded. -/
theorem c6_index_matches_abstract_table (xml : NumberingXml)
    (idx : Dict (List String)) (num : NumElem)
    (hnodup : (xml.nums.map NumElem.numId).Nodup)
    (hmem : num ∈ xml.nums)
    (hok : collect_numFmts xml = .ok idx) :
    dictGet? idx num.numId =
      dictGet? (abstractNumId2numFmts xml.abstractNums) num.abstractNumIdVal ∧
    (dictGet? (abstractNumId2numFmts xml.abstractNums) num.abstractNumIdVal).isSome := by
  obtain ⟨l₁, l₂, hsplit⟩ := List.append_of_mem hmem
  unfold collect_numFmts at hok
  rw [hsplit, pyDictLoop_append] at hok
  cases hmid : pyDictLoop (numEntry (abstractNumId2numFmts xml.abstractNums)) l₁ [] with
  | error e =>
    rw [hmid] at hok
    exact absurd hok (by simp)
  | ok mid =>
    rw [hmid] at hok
    simp only [pyDictLoop] at hok
    cases hfe : numEntry (abstractNumId2numFmts xml.abstractNums) num with
    | error e =>
      rw [hfe] at hok
      exact absurd hok (by simp)
    | ok kv =>
      rw [hfe] at hok
      unfold numEntry at hfe
      cases hget : dictGet? (abstractNumId2numFmts xml.abstractNums)
          num.abstractNumIdVal with
      | none =>
        rw [hget] at hfe
        exact absurd hfe (by simp)
      | some fmts =>
        rw [hget] at hfe
        cases hfe
        have hni : ∀ x ∈ l₂, x.numId ≠ num.numId := by
          rw [hsplit] at hnodup
          simp only [List.map_append, List.map_cons] at hnodup
          have h2 := hnodup.of_append_right
          rw [List.nodup_cons] at h2
          intro x hx hxeq
          exact h2.1 (hxeq ▸ List.mem_map_of_mem NumElem.numId hx)
        have huntouched := pyDictLoop_untouched hok (fun x hx kv' hkv' => by
          unfold numEntry at hkv'
          cases hgx : dictGet? (abstractNumId2numFmts xml.abstractNums)
              x.abstractNumIdVal with
          | none => rw [hgx] at hkv'; exact absurd hkv' (by simp)
          | some f2 =>
            rw [hgx] at hkv'
            cases hkv'
            exact hni x hx)
        constructor
        · simp [huntouched, dictGet?_dictUpd, hget]
        · simp [hget]

/-- A numbering part with one abstract definition and one concrete list. -/
def xmlC6w : NumberingXml :=
  { abstractNums := [{ abstractNumId := "0",
                       lvls := [{ ilvl := 0, numFmtVal := "bullet" }] }],
    nums := [{ numId := "3", abstractNumIdVal := "0" }] }

/-- Witness for C6 at a concrete numbering part. -/
theorem c6_witness :
    dictGet? [("3", ["bullet"])] "3" =
      dictGet? (abstractNumId2numFmts xmlC6w.abstractNums) "0" ∧
    (dictGet? (abstractNumId2numFmts xmlC6w.abstractNums) "0").isSome :=
  c6_index_matches_abstract_table xmlC6w [("3", ["bullet"])]
    { numId := "3", abstractNumIdVal := "0" } (by decide) (by decide) rfl

end ClaimC6

section ClaimC4

/-- An abstract definition whose declared levels have a gap: levels 0 and 2
are declared, level 1 is missing. -/
def absC4 : AbstractNum :=
  { abstractNumId := "0",
    lvls := [{ ilvl := 0, numFmtVal := "A" }, { ilvl := 2, numFmtVal := "C" }] }

/-- A numbering part containing the gapped definition and one concrete list
referencing it. -/
def xmlC4 : NumberingXml :=
  { abstractNums := [absC4], nums := [{ numId := "1", abstractNumIdVal := "0" }] }

/-- C4 counterexample: an abstract definition missing level 1 (levels 0 and 2
declared) does NOT make `collect_numFmts` fail: it returns a format list —
the two formats packed into indices 0 and 1 — because the source never reads
`w:ilvl`. -/
theorem c4_counterexample_gap_no_error :
    declaredFmtAtLevel absC4 0 = some "A" ∧
    declaredFmtAtLevel absC4 1 = none ∧
    declaredFmtAtLevel absC4 2 = some "C" ∧
    collect_numFmts xmlC4 = .ok [("1", ["A", "C"])] :=
  ⟨rfl, rfl, rfl, rfl⟩

/-- C4 amended: `collect_numFmts` performs no validation of declared level
indices at all — it collects one format per `w:lvl` element in document
order, so it succeeds whenever every concrete reference resolves, whatever
the `w:ilvl` values, and each resolved list's length is the number of `w:lvl`
elements (not one more than the highest declared level). -/
theorem c4_amended_no_level_validation (xml : NumberingXml)
    (href : ∀ num ∈ xml.nums,
      (dictGet? (abstractNumId2numFmts xml.abstractNums) num.abstractNumIdVal).isSome
        = true) :
    (∃ idx, collect_numFmts xml = .ok idx) ∧
    ∀ a ∈ xml.abstractNums, (abstractFmts a).length = a.lvls.length := by
  constructor
  · unfold collect_numFmts
    apply pyDictLoop_total
    intro num hnum
    cases hg : dictGet? (abstractNumId2numFmts xml.abstractNums)
        num.abstractNumIdVal with
    | none =>
      have := href num hnum
      rw [hg] at this
      exact absurd this (by simp)
    | some fmts =>
      refine ⟨(num.numId, fmts), ?_⟩
      unfold numEntry
      rw [hg]
  · intro a _
    simp [abstractFmts]

/-- Witness for the amended C4 at the concrete gapped definition. -/
theorem c4_witness : (abstractFmts absC4).length = absC4.lvls.length :=
  (c4_amended_no_level_validation xmlC4 (by decide)).2 absC4 (by decide)

end ClaimC4

section ClaimC5

/-- An abstract definition with contiguous declared levels 0 and 1 whose
`w:lvl` elements appear in descending document order. -/
def absC5 : AbstractNum :=
  { abstractNumId := "0",
    lvls := [{ ilvl := 1, numFmtVal := "B" }, { ilvl := 0, numFmtVal := "A" }] }

/-- A numbering part containing the reordered definition and one concrete
list referencing it. -/
def xmlC5 : NumberingXml :=
  { abstractNums := [absC5], nums := [{ numId := "1", abstractNumIdVal := "0" }] }

/-- C5 counterexample: for a definition with contiguous declared levels 0..1
whose `w:lvl` elements appear out of document order, the resolved list entry
at index 0 is the format of the FIRST `w:lvl` element (declared level 1),
not the format declared at level 0 — levels are collected in document order,
not ascending level order. -/
theorem c5_counterexample_document_order :
    absC5.lvls.map Lvl.ilvl = [1, 0] ∧
    declaredFmtAtLevel absC5 0 = some "A" ∧
    collect_numFmts xmlC5 = .ok [("1", ["B", "A"])] ∧
    (abstractFmts absC5).get? 0 = some "B" ∧
    some "B" ≠ (some "A" : Option String) :=
  ⟨rfl, rfl, rfl, rfl, by decide⟩

/-- Auxiliary for the amended C5: in a list of level elements whose declared
indices read `k, k+1, ...` in document order, searching for declared index
`k + i` finds exactly the element at position `i`. -/
theorem find?_ilvl_range' (l : List Lvl) (k : Nat)
    (h : l.map Lvl.ilvl = List.range' k l.length) (i : Nat) :
    l.find? (fun x => x.ilvl == k + i) = l.get? i := by
  induction l generalizing k i with
  | nil => simp
  | cons x xs ih =>
    simp only [List.map_cons, List.length_cons, List.range'_succ] at h
    injection h with hx hxs
    cases i with
    | zero =>
      simp [List.find?, hx]
    | succ j =>
      have hp : (x.ilvl == k + (j + 1)) = false := by
        rw [hx]
        simp only [beq_eq_false_iff_ne, ne_eq]
        omega
      simp only [List.find?, hp]
      simp only [show k + (j + 1) = (k + 1) + j from by omega]
      rw [List.get?_cons_succ]
      exact ih (k + 1) hxs j

/-- C5 amended: the resolved format list always has one entry per `w:lvl`
element; the claimed index-to-level correspondence holds exactly when the
`w:lvl` elements appear in ascending declared order (element at document
position `i` declares level `i`) — the source collects formats in document
order and never sorts by `w:ilvl`. -/
theorem c5_amended_ascending_document_order (a : AbstractNum) (n : Nat)
    (hlen : a.lvls.length = n + 1)
    (hord : a.lvls.map Lvl.ilvl = List.range a.lvls.length) :
    (abstractFmts a).length = n + 1 ∧
    ∀ i, i ≤ n → declaredFmtAtLevel a i = (abstractFmts a).get? i ∧
      ((abstractFmts a).get? i).isSome = true := by
  have hrange : a.lvls.map Lvl.ilvl = List.range' 0 a.lvls.length := by
    rw [hord, List.range_eq_range']
  constructor
  · simp [abstractFmts, hlen]
  · intro i hi
    have hfind := find?_ilvl_range' a.lvls 0 hrange i
    have hzero : (fun x : Lvl => x.ilvl == 0 + i) = (fun x : Lvl => x.ilvl == i) := by
      funext x
      simp
    rw [hzero] at hfind
    have hi' : i < a.lvls.length := by omega
    constructor
    · unfold declaredFmtAtLevel abstractFmts
      rw [hfind, List.get?_map]
    · unfold abstractFmts
      rw [List.get?_map, List.get?_eq_get hi']
      rfl

/-- An abstract definition whose levels appear in ascending document order. -/
def absC5w : AbstractNum :=
  { abstractNumId := "0",
    lvls := [{ ilvl := 0, numFmtVal := "decimal" },
             { ilvl := 1, numFmtVal := "lowerLetter" }] }

/-- Witness for the amended C5 at a concrete well-ordered definition. -/
theorem c5_witness :
    (abstractFmts absC5w).length = 2 ∧
    declaredFmtAtLevel absC5w 0 = (abstractFmts absC5w).get? 0 :=
  ⟨(c5_amended_ascending_document_order absC5w 1 rfl (by decide)).1,
   ((c5_amended_ascending_document_order absC5w 1 rfl (by decide)).2 0
     (by decide)).1⟩

end ClaimC5

section ClaimC8

/-- Cross-linking only ever fills the `rels` field: the spread attributes are
untouched. -/
theorem tryCrossLink_attribs (p2r : Dict (List (Dict String))) (f : FileRecord) :
    (tryCrossLink p2r f).attribs = f.attribs := by
  cases hp : get_path_rels f with
  | ok p =>
    cases hg : dictGet? p2r p with
    | some rels => simp [tryCrossLink, hp, hg]
    | none => simp [tryCrossLink, hp, hg]
  | error e => simp [tryCrossLink, hp]

/-- Cross-linking only ever fills the `rels` field: the `dir` tag is
untouched. -/
theorem tryCrossLink_dir (p2r : Dict (List (Dict String))) (f : FileRecord) :
    (tryCrossLink p2r f).dir = f.dir := by
  cases hp : get_path_rels f with
  | ok p =>
    cases hg : dictGet? p2r p with
    | some rels => simp [tryCrossLink, hp, hg]
    | none => simp [tryCrossLink, hp, hg]
  | error e => simp [tryCrossLink, hp]

/-- Membership in a left fold of list appends comes from the initial list or
from one generator application. -/
theorem mem_foldl_append {γ δ : Type} (g : γ → List δ) (l : List γ)
    (init : List δ) {e : δ}
    (h : e ∈ l.foldl (fun acc a => acc ++ g a) init) :
    e ∈ init ∨ ∃ a ∈ l, e ∈ g a := by
  induction l generalizing init with
  | nil => exact Or.inl h
  | cons a as ih =>
    simp only [List.foldl_cons] at h
    rcases ih (init ++ g a) h with h1 | ⟨b, hb, he⟩
    · rcases List.mem_append.mp h1 with h2 | h2
      · exact Or.inl h2
      · exact Or.inr ⟨a, List.mem_cons_self a as, h2⟩
    · exact Or.inr ⟨b, List.mem_cons_of_mem a hb, he⟩

/-- Every flattened record comes from one relationship entry of one
descriptor, tagged with the descriptor's `dirname`. -/
theorem mem_flattenFiles {p2r : Dict (List (Dict String))} {f : FileRecord}
    (h : f ∈ flattenFiles p2r) :
    ∃ kv ∈ p2r, ∃ x ∈ kv.2, f = FileRecord.mk x (dirname kv.1) none := by
  unfold flattenFiles at h
  rcases mem_foldl_append
      (fun kv => kv.2.map (fun x => FileRecord.mk x (dirname kv.1) none))
      p2r [] h with h1 | ⟨kv, hkv, he⟩
  · exact absurd h1 (List.not_mem_nil f)
  · rcases List.mem_map.mp he with ⟨x, hx, hxe⟩
    exact ⟨kv, hkv, x, hx, hxe.symm⟩

/-- Every binding of a successful `collect_rels` names a `.rels` entry of the
archive and carries exactly its relationship list. -/
theorem collect_rels_mem {z : Archive} {p2r : Dict (List (Dict String))}
    (h : collect_rels z = .ok p2r) :
    ∀ kv ∈ p2r, (kv.1, ZipPart.rels kv.2) ∈ z.entries ∧ relsName kv.1 = true := by
  intro kv hkv
  rcases pyDictLoop_mem h kv hkv with hd | ⟨e, he, hfe⟩
  · exact absurd hd (List.not_mem_nil kv)
  · have hm := List.mem_filter.mp he
    unfold relsEntry at hfe
    cases hE : e.2 with
    | rels items =>
      rw [hE] at hfe
      cases hfe
      constructor
      · show (e.1, ZipPart.rels items) ∈ z.entries
        rw [← hE]
        exact hm.1
      · exact hm.2
    | numbering xml => rw [hE] at hfe; exact absurd hfe (by simp)
    | docProps xml => rw [hE] at hfe; exact absurd hfe (by simp)
    | binary b => rw [hE] at hfe; exact absurd hfe (by simp)

/-- C8 amended: every flattened record of `get_context` is tagged with the
directory of the DESCRIPTOR part itself (the `_rels` folder, `dirname` of the
descriptor entry name) — not with the directory containing the referencing
part; the `_rels` component is only stripped later, at resolution time, so
the record's target still resolves relative to the referencing part's
containing directory (`dirname` applied twice to the descriptor name). -/
theorem c8_amended_dir_tag_and_resolution (z : Archive) (ctx : Context)
    (hok : get_context z = .ok ctx) :
    ∀ f ∈ ctx.files, ∃ k items x,
      (k, ZipPart.rels items) ∈ z.entries ∧ relsName k = true ∧ x ∈ items ∧
      f.attribs = x ∧ f.dir = dirname k ∧
      ∀ t, dictGet? x "Target" = some t →
        get_path f = .ok (joinPath (dirname (dirname k)) t) := by
  intro f hf
  unfold get_context at hok
  cases hcr : collect_rels z with
  | error e =>
    rw [hcr] at hok
    exact absurd hok (by simp)
  | ok p2r =>
    rw [hcr] at hok
    have hfiles : ctx.files = (flattenFiles p2r).map (tryCrossLink p2r) := by
      cases htry : numberingTry z with
      | ok nf =>
        rw [htry] at hok
        cases hok
        rfl
      | error e =>
        rw [htry] at hok
        cases e with
        | keyError => cases hok; rfl
        | attributeError => exact absurd hok (by simp)
        | parseError => exact absurd hok (by simp)
    rw [hfiles] at hf
    rcases List.mem_map.mp hf with ⟨f0, hf0, hfe⟩
    rcases mem_flattenFiles hf0 with ⟨kv, hkv, x, hx, hf0e⟩
    have hrel := collect_rels_mem hcr kv hkv
    have ha : f.attribs = x := by
      rw [← hfe, tryCrossLink_attribs, hf0e]
    have hd : f.dir = dirname kv.1 := by
      rw [← hfe, tryCrossLink_dir, hf0e]
    refine ⟨kv.1, kv.2, x, hrel.1, hrel.2, hx, ha, hd, ?_⟩
    intro t ht
    unfold get_path
    rw [ha, ht, hd]

/-- An archive whose one descriptor describes the relationships of
`word/document.xml` and so lives in `word/_rels`. -/
def zC8 : Archive :=
  { entries := [("word/_rels/document.xml.rels", ZipPart.rels
      [[("Id", "rId1"), ("Type", "http://x/image"), ("Target", "media/image1.png")]])] }

/-- The one flattened record `get_context` emits for `zC8`. -/
def fC8 : FileRecord :=
  { attribs := [("Id", "rId1"), ("Type", "http://x/image"),
                ("Target", "media/image1.png")],
    dir := "word/_rels", rels := none }

/-- The context `get_context` returns for `zC8`. -/
def ctxC8 : Context :=
  { files := [fC8], numId2numFmts := none, numId2count := none }

/-- C8 counterexample: the record emitted for the descriptor
`word/_rels/document.xml.rels` is tagged `dir := "word/_rels"` — the
descriptor's own `_rels` folder — while the directory containing the
referencing part `word/document.xml` is `"word"`; the claimed tag and the
actual tag differ. -/
theorem c8_counterexample_dir_is_rels_folder :
    get_context zC8 = .ok ctxC8 ∧
    fC8.dir = "word/_rels" ∧
    dirname (dirname "word/_rels/document.xml.rels") = "word" ∧
    ("word/_rels" : String) ≠ "word" :=
  ⟨rfl, rfl, rfl, by decide⟩

/-- Witness for the amended C8 at the concrete one-descriptor archive. -/
theorem c8_witness : ∃ k items x,
    (k, ZipPart.rels items) ∈ zC8.entries ∧ relsName k = true ∧ x ∈ items ∧
    fC8.attribs = x ∧ fC8.dir = dirname k ∧
    ∀ t, dictGet? x "Target" = some t →
      get_path fC8 = .ok (joinPath (dirname (dirname k)) t) :=
  c8_amended_dir_tag_and_resolution zC8 ctxC8 rfl fC8 (by decide)

end ClaimC8

section ClaimC9

/-- Inversion of one successful image-dict entry: the record had a target,
its resolved path was readable, and the produced key is the target's base
name. -/
theorem imageEntry_ok {z : Archive} {x : FileRecord} {kv : String × String}
    (h : imageEntry z x = .ok kv) :
    ∃ t p, dictGet? x.attribs "Target" = some t ∧ get_path x = .ok p ∧
      readBinary z p = .ok kv.2 ∧ kv.1 = basename t := by
  unfold imageEntry at h
  split at h
  · exact absurd h (by simp)
  · next t heqT =>
    split at h
    · exact absurd h (by simp)
    · next p heqP =>
      split at h
      · exact absurd h (by simp)
      · next b heqB =>
        cases h
        exact ⟨t, p, heqT, heqP, heqB, rfl⟩

/-- C9: the image mapping `pull_image_files` returns is keyed by the base
name of each image record's target, and when the image-filtered record list
splits as `l₁ ++ xj :: l₂` with no record of `l₂` sharing `xj`'s target base
name, the mapping holds exactly the bytes read for `xj` — the latest record
with a given base name silently overwrites every earlier one. -/
theorem c9_images_keyed_by_basename_last_wins (z : Archive) (ctx : Context)
    (imgs : Dict String)
    (hok : pull_image_files z ctx = .ok imgs) :
    (∀ kv ∈ imgs, ∃ x ∈ filter_files_by_type ctx.files "image",
       ∃ t, dictGet? x.attribs "Target" = some t ∧ kv.1 = basename t) ∧
    (∀ l₁ xj l₂, filter_files_by_type ctx.files "image" = l₁ ++ xj :: l₂ →
     ∀ t, dictGet? xj.attribs "Target" = some t →
     (∀ x ∈ l₂, ∀ u, dictGet? x.attribs "Target" = some u →
        basename u ≠ basename t) →
     ∃ p b, get_path xj = .ok p ∧ readBinary z p = .ok b ∧
       dictGet? imgs (basename t) = some b) := by
  constructor
  · intro kv hkv
    rcases pyDictLoop_mem hok kv hkv with hd | ⟨x, hx, hfx⟩
    · exact absurd hd (List.not_mem_nil kv)
    · rcases imageEntry_ok hfx with ⟨t, p, ht, hp, hb, hk1⟩
      exact ⟨x, hx, t, ht, hk1⟩
  · intro l₁ xj l₂ hsplit t ht hlast
    unfold pull_image_files at hok
    rw [hsplit, pyDictLoop_append] at hok
    cases hmid : pyDictLoop (imageEntry z) l₁ [] with
    | error e =>
      rw [hmid] at hok
      exact absurd hok (by simp)
    | ok mid =>
      rw [hmid] at hok
      simp only [pyDictLoop] at hok
      cases hfe : imageEntry z xj with
      | error e =>
        rw [hfe] at hok
        exact absurd hok (by simp)
      | ok kv =>
        rw [hfe] at hok
        rcases imageEntry_ok hfe with ⟨t', p, ht', hp, hb, hk1⟩
        have htt : t' = t := by
          rw [ht] at ht'
          exact (Option.some.inj ht').symm
        subst htt
        refine ⟨p, kv.2, hp, hb, ?_⟩
        have hunt := pyDictLoop_untouched hok (fun x hx kv' hkv' => by
          rcases imageEntry_ok hkv' with ⟨u, p2, hu, hp2, hb2, hk1'⟩
          rw [hk1']
          exact hlast x hx u hu)
        rw [hunt, ← hk1, dictGet?_dictUpd, if_pos rfl]

/-- An archive holding two image payloads whose paths differ only in the
containing directory. -/
def zC9 : Archive :=
  { entries := [("word/media/image1.png", ZipPart.binary "B1"),
                ("word/media2/image1.png", ZipPart.binary "B2")] }

/-- First image record: target `media/image1.png`. -/
def xC9a : FileRecord :=
  { attribs := [("Id", "rId1"), ("Type", "http://x/image"),
                ("Target", "media/image1.png")],
    dir := "word/_rels", rels := none }

/-- Second image record: target `media2/image1.png`, same base name. -/
def xC9b : FileRecord :=
  { attribs := [("Id", "rId2"), ("Type", "http://x/image"),
                ("Target", "media2/image1.png")],
    dir := "word/_rels", rels := none }

/-- A context with the two colliding image records. -/
def ctxC9 : Context :=
  { files := [xC9a, xC9b], numId2numFmts := none, numId2count := none }

/-- Witness for C9 at a concrete basename collision: the returned mapping
holds the later record's bytes. -/
theorem c9_witness :
    ∃ p b, get_path xC9b = .ok p ∧ readBinary zC9 p = .ok b ∧
      dictGet? [("image1.png", "B2")] (basename "media2/image1.png") = some b :=
  (c9_images_keyed_by_basename_last_wins zC9 ctxC9 [("image1.png", "B2")] rfl).2
    [xC9a] xC9b [] rfl "media2/image1.png" rfl
    (fun x hx => absurd hx (List.not_mem_nil x))

end ClaimC9

section ClaimC10

/-- C10: `collect_docProps` returns a mapping only when every direct child's
tag matches the namespace-qualified pattern (the anchored regex
`{.+}(\w+)`); on a child whose tag lacks the qualification — here the
unqualified tag `creator` — `re.match` returns `None` and the `.group`
access raises `AttributeError` instead of producing an entry. -/
theorem c10_docProps_tag_precondition :
    (∀ (xml : PropsXml) (out : Dict (Option String)),
      collect_docProps xml = .ok out →
      ∀ dc ∈ xml.children, (reMatchTagName dc.tag).isSome = true) ∧
    collect_docProps { children := [{ tag := "creator", text := some "Shay Hill" }] }
      = .error PyErr.attributeError := by
  constructor
  · intro xml out hok dc hdc
    rcases pyDictLoop_ok_forall hok dc hdc with ⟨kv, hkv⟩
    unfold docPropEntry at hkv
    cases hm : reMatchTagName dc.tag with
    | none => rw [hm] at hkv; exact absurd hkv (by simp)
    | some name => simp [hm]
  · rfl

/-- A core-properties part with one namespace-qualified child. -/
def xmlC10w : PropsXml :=
  { children := [{ tag := "{ns}creator", text := some "Shay Hill" }] }

/-- Witness for C10 at a concrete qualified tag. -/
theorem c10_witness : (reMatchTagName "{ns}creator").isSome = true :=
  c10_docProps_tag_precondition.1 xmlC10w [("creator", some "Shay Hill")] rfl
    { tag := "{ns}creator", text := some "Shay Hill" } (by decide)

end ClaimC10
